import Mathlib

/-!
# Verification of the openclassaction settlement bot

A shallow embedding, in Lean 4, of the core logic of `src/openclass_bot.py`:
the heuristic field extractor (`score_proof_answer`, `normalize_proof_answer`,
`is_bad_reward_heading`, `simplify_summary`, `fetch_settlement_details`), the
scan orchestrator (`run_settlement_scan`), and the adaptive scheduler
(`settlement_scheduler`). Python strings are modelled as Lean `String`
(a list of unicode scalar values, matching Python's code-point view of `str`);
Python `None` as `Option.none`; HTML documents as a flat list of tags in
document order, the text of a tag being the result of `get_text(" ", strip=True)`;
network fetching as an oracle `String → Option Page`, `none` standing for a
transport error or a non-2xx status (the paths on which `requests.get` or
`raise_for_status` raise).  Discord delivery is external to the core (spec §6)
and is not modelled; emitted records stand for the embeds sent.
-/

namespace OCA

/-! ## String primitives (Python `str` operations on the `List Char` view) -/

/-- Does the pattern occur as a contiguous run of the list? -/
def infixGo (pat : List Char) : List Char → Bool
  | [] => pat.isPrefixOf []
  | c :: cs => pat.isPrefixOf (c :: cs) || infixGo pat cs

/-- Python's `pat in s` substring test. -/
def strContains (s pat : String) : Bool :=
  infixGo pat.data s.data

/-- Python's `s.endswith(pat)`. -/
def strEndsWith (s pat : String) : Bool :=
  pat.data.isSuffixOf s.data

/-- Python's `s.startswith(pat)`. -/
def strStartsWith (s pat : String) : Bool :=
  pat.data.isPrefixOf s.data

/-- Python's `s.lower()` (the source only ever lowers ASCII text). -/
def lowerStr (s : String) : String :=
  ⟨s.data.map Char.toLower⟩

/-- `stripL` on the character list: drop leading and trailing whitespace. -/
def stripL (l : List Char) : List Char :=
  ((l.dropWhile Char.isWhitespace).reverse.dropWhile Char.isWhitespace).reverse

/-- Python's `s.strip()`. -/
def strip (s : String) : String :=
  ⟨stripL s.data⟩

/-- Split at the first occurrence of the pattern: `some (before, after)` when
the pattern occurs, `none` otherwise (used for Python's `s.split(sep, 1)`). -/
def splitFirstAux (pat : List Char) : List Char → Option (List Char × List Char)
  | [] => if pat.isPrefixOf [] then some ([], []) else none
  | c :: cs =>
    if pat.isPrefixOf (c :: cs) then some ([], (c :: cs).drop pat.length)
    else
      match splitFirstAux pat cs with
      | some (pre, post) => some (c :: pre, post)
      | none => none

/-- Python's `s.split(":", 1)`: `some (before, after)` when a colon occurs. -/
def splitColon (s : String) : Option (String × String) :=
  match splitFirstAux [':'] s.data with
  | some (pre, post) => some (⟨pre⟩, ⟨post⟩)
  | none => none

/-- Index of the last space, Python's `s.rfind(" ")` (`none` for -1). -/
def lastSpaceIdx (l : List Char) : Option Nat :=
  match l.reverse.findIdx? (fun c => c = ' ') with
  | some j => some (l.length - 1 - j)
  | none => none

/-- The whitespace-separated words of a string, Python's `s.split()`. -/
def wordsAux : List Char → List Char → List (List Char)
  | [], acc => if acc.isEmpty then [] else [acc.reverse]
  | c :: cs, acc =>
    if c.isWhitespace then
      if acc.isEmpty then wordsAux cs [] else acc.reverse :: wordsAux cs []
    else wordsAux cs (c :: acc)

/-- Python's `" ".join(text.split())`: collapse whitespace runs. -/
def collapseWs (s : String) : String :=
  ⟨List.intercalate [' '] (wordsAux s.data [])⟩

/-- Lexicographic comparison of character lists by code point, the order
Python's `sorted` uses on `str`. -/
def lexLe : List Char → List Char → Bool
  | [], _ => true
  | _ :: _, [] => false
  | a :: as, b :: bs => if a < b then true else if b < a then false else lexLe as bs

/-- `a ≤ b` on strings as Python compares them. -/
def strLeP (a b : String) : Prop :=
  lexLe a.data b.data = true

instance : DecidableRel strLeP := fun a b => by
  unfold strLeP
  infer_instance

/-! ## Proof-answer scoring and normalization
(`score_proof_answer`, `normalize_proof_answer`, src lines 132-165) -/

/-- Score a proof answer: higher = more confident / specific
(`score_proof_answer`, src lines 132-150). -/
def score_proof_answer (text : String) : Int :=
  let low := strip (lowerStr text)
  if [("not required" : String), "none required", "no proof"].any
      (fun kw => strContains low kw) then 3
  else if low = "no" || low = "none" then 3
  else if strContains low "may be required" then 2
  else if strContains low "required" || (low = "yes" || low = "y") then 1
  else 0

/-- Normalize proof answer text into friendly Yes/No/Maybe sentences
(`normalize_proof_answer`, src lines 153-165). -/
def normalize_proof_answer (text : String) : String :=
  let low := strip (lowerStr text)
  if [("not required" : String), "none required", "no proof"].any
      (fun kw => strContains low kw) then "No, proof is not required."
  else if low = "no" || low = "none" then "No, proof is not required."
  else if strContains low "may be required" then "Proof may be required."
  else if strContains low "required" || (low = "yes" || low = "y") then
    "Yes, proof is required."
  else strip text

/-! ## Bad reward heading filter (`is_bad_reward_heading`, src lines 168-197) -/

/-- Variation markers that rescue a question-style heading. -/
def variationMarkers : List String :=
  ["varies", "pending", "tbd", "to be determined"]

/-- FAQ-style phrases that are never payouts. -/
def badPhrases : List String :=
  ["who is eligible for a payout", "who is eligible", "who can file",
   "who may qualify", "what is this settlement", "what is the",
   "how do i file", "how can i file", "how to file", "class members",
   "who is included"]

/-- True when the candidate reward text is obviously a heading/question and
not an actual payout line (`is_bad_reward_heading`, src lines 168-197). -/
def is_bad_reward_heading (text : String) : Bool :=
  let low := strip (lowerStr text)
  if strEndsWith text "?" && !strContains text "$"
      && !(variationMarkers.any (fun k => strContains low k)) then true
  else badPhrases.any (fun p => strContains low p)

/-! ## Summary simplification (`simplify_summary`, src lines 200-228) -/

/-- The sentence separators tried, in the source's fixed order. -/
def sentenceSeps : List String := [". ", "? ", "! "]

/-- Try each separator: return the first pre-separator part longer than 40
characters, with the separator's punctuation appended. -/
def trySeps (raw : String) : List String → Option String
  | [] => none
  | sep :: rest =>
    match splitFirstAux sep.data raw.data with
    | some (pre, _) =>
      let first := strip ⟨pre⟩
      if first.length > 40 then some (first ++ strip sep) else trySeps raw rest
    | none => trySeps raw rest

/-- The soft truncation of src lines 223-227: cut to 220 characters, then
retreat to the last space when it sits beyond position 80. -/
def softCut (raw : String) : String :=
  let cut : String := ⟨raw.data.take 220⟩
  match lastSpaceIdx cut.data with
  | some i => if i > 80 then ⟨cut.data.take i⟩ else cut
  | none => cut

/-- Simple one-sentence-ish cleanup (`simplify_summary`, src lines 200-228):
collapse whitespace, take the first sentence if long enough, otherwise
truncate softly to ~220 chars. -/
def simplify_summary (text : String) : String :=
  if text = "" then text
  else
    let raw := collapseWs text
    match trySeps raw sentenceSeps with
    | some r => r
    | none =>
      if raw.length ≤ 220 then raw
      else softCut raw ++ "..."

/-! ## Page model and detail extraction (`fetch_settlement_details`, src lines 231-440)

A fetched page is the flat list of its tags in document order; `text` is what
`get_text(" ", strip=True)` returns for the tag, `href` its `href` attribute.
BeautifulSoup's `find_all([names])` is a filter on that list, and
`find_next_sibling` steps to the next element of the list (a flat sibling
model of the tree). -/

structure Tag where
  name : String
  text : String
  href : Option String
deriving DecidableEq

/-- A fetched HTML document, as the flat list of its tags. -/
abbrev Page := List Tag

/-- The record `fetch_settlement_details` returns. Every field of the Python
dict may hold `None` except `id`/`title`; `Option` mirrors that. The
source always stores a string under `"reward"`, which shows up here as the
field never being `none`. -/
structure SettlementRecord where
  id : String
  title : String
  reward : Option String
  deadline : Option String
  summary : Option String
  proof : Option String
  claim_url : Option String
deriving DecidableEq

/-- Reward / payout keywords of the first pass (src lines 295-303). -/
def rewardKeys : List String :=
  ["settlement award", "estimated award", "cash payment", "payment amount",
   "payout", "benefit amount", "settlement benefits"]

/-- The words the dollar-line reward fallback looks for (src line 331). -/
def fallbackRewardWords : List String :=
  ["award", "payment", "payout", "cash", "benefit"]

/-- The tag names the first pass visits (src line 284). -/
def relevantTagNames : List String := ["h2", "h3", "h4", "strong", "p", "li"]

/-- State of the first pass over the page: reward and deadline found so far,
the same-line proof candidates, and the positions of proof headings. -/
structure Pass1 where
  reward : Option String
  deadline : Option String
  sameLine : List String
  headings : List Nat
deriving DecidableEq

/-- One step of the first pass (src lines 284-322), at position `i`. -/
def pass1Step (i : Nat) (tag : Tag) (acc : Pass1) : Pass1 :=
  if !(relevantTagNames.contains tag.name) then acc
  else
    let t := tag.text
    if t = "" then acc
    else
      let low := lowerStr t
      let acc1 :=
        if acc.reward.isNone
            && rewardKeys.any (fun k => strContains low k) then
          let candidate :=
            match splitColon t with
            | some (_, post) => strip post
            | none => strip t
          if is_bad_reward_heading candidate then acc
          else { acc with reward := some candidate }
        else acc
      let acc2 :=
        if acc1.deadline.isNone && strContains low "deadline" then
          let dl :=
            match splitColon t with
            | some (_, post) => strip post
            | none => strip t
          { acc1 with deadline := some dl }
        else acc1
      if strContains low "proof" then
        if strContains t ":" then { acc2 with sameLine := acc2.sameLine ++ [t] }
        else { acc2 with headings := acc2.headings ++ [i] }
      else acc2

/-- The first pass over the enumerated page. -/
def pass1Go : Nat → List Tag → Pass1 → Pass1
  | _, [], acc => acc
  | i, t :: ts, acc => pass1Go (i + 1) ts (pass1Step i t acc)

/-- First pass over a whole page (src lines 284-322). -/
def pass1 (page : Page) : Pass1 :=
  pass1Go 0 page ⟨none, none, [], []⟩

/-- Reward fallback: the first `p`/`li`/`strong` tag whose text holds a `$`
and one of the fallback words (src lines 325-333). -/
def rewardFallback (page : Page) : Option Tag :=
  (page.filter (fun t =>
      t.name = "p" || t.name = "li" || t.name = "strong")).find?
    (fun t => strContains t.text "$"
      && fallbackRewardWords.any (fun w => strContains (lowerStr t.text) w))

/-- Summary scan over the `p` tags (src lines 342-384): skip boilerplate,
author lines, PDF-viewer text; hold step/bullet lists and short paragraphs
back as a fallback; stop at the first descriptive paragraph over 80 chars. -/
def summaryGo : List Tag → Option String → Option String
  | [], backup => backup
  | t :: ts, backup =>
    if t.name ≠ "p" then summaryGo ts backup
    else
      let txt := t.text
      if txt = "" then summaryGo ts backup
      else
        let low := lowerStr txt
        if strContains low "openclassactions.com is a news site providing information" then
          summaryGo ts backup
        else if strContains low "class action claims are submitted under penalty of perjury" then
          summaryGo ts backup
        else if strContains low " steve " || strStartsWith low "steve "
            || strStartsWith low "by steve" then
          summaryGo ts backup
        else if strContains low "browser does not support viewing pdfs inline" then
          summaryGo ts backup
        else if strContains low "download the pdf" then
          summaryGo ts backup
        else if strContains low "step 1" || strContains low "step 2"
            || strContains txt " â€¢ " then
          summaryGo ts (if backup.isNone then some txt else backup)
        else if txt.length > 80 then some txt
        else summaryGo ts (if backup.isNone then some txt else backup)

/-- The answer text for a proof heading at position `i`: the next following
tag with non-empty text (src lines 403-411, flat sibling model). -/
def siblingAnswer (page : Page) (i : Nat) : Option String :=
  ((page.drop (i + 1)).find? (fun t => t.text ≠ "")).map (·.text)

/-- The value of a same-line proof candidate: the text after the colon,
stripped (src line 396). -/
def sameLineVal (line : String) : String :=
  match splitColon line with
  | some (_, post) => strip post
  | none => strip line

/-- All candidate proof answers, in the order the source scans them:
same-line values first, then heading answers (src lines 391-415). -/
def proofCandidateVals (page : Page) : List String :=
  let p1 := pass1 page
  p1.sameLine.map sameLineVal ++ p1.headings.filterMap (siblingAnswer page)

/-- The best-score / first-on-tie selection loop of src lines 392-415:
running best score and current choice, replaced only on a strictly higher
score. -/
def selectBest (best : Int) (cur : Option String) : List String → Option String
  | [] => cur
  | v :: rest =>
    if best < score_proof_answer v then selectBest (score_proof_answer v) (some v) rest
    else selectBest best cur rest

/-- Model of `urllib.parse.urljoin` (library function): an absolute URL
passes through, anything else resolves against the base. No claim depends on
its exact value. -/
def urljoin (base rel : String) : String :=
  if strContains rel "://" then rel else base ++ rel

/-- Claim button URL: the first `a`/`button` whose text holds "submit claim"
and whose `href` is truthy (src lines 424-430). -/
def findClaimUrl (url : String) : List Tag → Option String
  | [] => none
  | t :: ts =>
    if (t.name = "a" || t.name = "button")
        && strContains (lowerStr t.text) "submit claim" then
      match t.href with
      | some h => if h = "" then findClaimUrl url ts else some (urljoin url h)
      | none => findClaimUrl url ts
    else findClaimUrl url ts

/-- Scrape a single settlement page (`fetch_settlement_details`,
src lines 231-440). `pages url = none` models a transport error or non-2xx
status: the function then returns the degraded placeholder of src lines
255-263 instead of raising. -/
def fetch_settlement_details (pages : String → Option Page) (url : String) :
    SettlementRecord :=
  match pages url with
  | none =>
    { id := url, title := "Class Action Settlement", reward := some "Not listed",
      deadline := none, summary := none, proof := none, claim_url := none }
  | some page =>
    let title := ((page.find? (fun t => t.name = "h1")).map (·.text)).getD
      "Class Action Settlement"
    let p1 := pass1 page
    let reward : String :=
      match p1.reward with
      | some r => r
      | none =>
        match rewardFallback page with
        | some t => t.text
        | none => "Not listed"
    let fullSummary := summaryGo page none
    let cleanedSummary : Option String :=
      match fullSummary with
      | some s => if s = "" then none else some (simplify_summary s)
      | none => none
    let proofAnswer := selectBest (-1) none (proofCandidateVals page)
    let proof : Option String :=
      match proofAnswer with
      | some v => if v = "" then none else some (normalize_proof_answer v)
      | none => none
    { id := url, title := title, reward := some reward,
      deadline := p1.deadline, summary := cleanedSummary, proof := proof,
      claim_url := findClaimUrl url page }

/-! ## Core scan (`run_settlement_scan`, src lines 503-551)

The seen set is the list of already-emitted ids (set semantics through
membership). The function returns the emitted records, the updated seen set
and the count it returns to its caller. The Discord channel is an external
collaborator (spec §6) and is assumed present; `max_posts = None` at the call
sites becomes the explicit `MAX_POSTS_PER_RUN`. -/

/-- `MAX_POSTS_PER_RUN` (src line 30). -/
def MAX_POSTS_PER_RUN : Nat := 30

/-- Fetch index, filter out seen URLs, post up to `maxPosts` new settlements,
committing each emitted id to the seen set (src lines 503-551). Python's
`sorted(new_links)` is modelled by an insertion sort under the code-point
order `strLeP`; both produce the unique ascending reordering. -/
def run_settlement_scan (pages : String → Option Page) (links : List String)
    (seen : List String) (maxPosts : Nat) :
    List SettlementRecord × List String × Nat :=
  if links.isEmpty then ([], seen, 0)
  else
    let newLinks := links.filter (fun u => !seen.contains u)
    if newLinks.isEmpty then ([], seen, 0)
    else
      let chosen := (newLinks.insertionSort strLeP).take maxPosts
      let recs := chosen.map (fetch_settlement_details pages)
      (recs, seen ++ recs.map (·.id), recs.length)

/-! ## Smart scheduler (`settlement_scheduler`, src lines 558-601) -/

/-- `BASE_INTERVAL_MINUTES` (src line 26). -/
def BASE_INTERVAL_MINUTES : Nat := 60

/-- `MAX_INTERVAL_MINUTES` (src line 27). -/
def MAX_INTERVAL_MINUTES : Nat := 180

/-- The scheduler's global state: `CURRENT_INTERVAL_MINUTES`,
`last_scan_time` (`none` = never ran) and `AUTO_POSTING_ENABLED`
(src lines 66-70). Timestamps are in seconds. -/
structure SchedulerState where
  currentInterval : Nat
  lastScanTime : Option Int
  autoPostingEnabled : Bool
deriving DecidableEq

/-- The post-run interval update (src lines 580-583 and 596-599): double up
to the ceiling on an empty run, reset to base otherwise. -/
def updateInterval (newCount : Nat) (interval : Nat) : Nat :=
  if newCount = 0 then min MAX_INTERVAL_MINUTES (interval * 2)
  else BASE_INTERVAL_MINUTES

/-- The inputs of one scheduler tick: the wall clock at the tick, the wall
clock when the scan (if any) finishes, and the count that scan returns. -/
structure TickEnv where
  now : Int
  finishTime : Int
  scanCount : Nat
deriving DecidableEq

/-- One tick of `settlement_scheduler` (src lines 558-601): no-op when
auto-posting is disabled; scan immediately when no run ever completed;
otherwise scan only when the elapsed time reaches the current interval.
Returns the new state and whether a scan ran. -/
def settlement_scheduler_tick (st : SchedulerState) (env : TickEnv) :
    SchedulerState × Bool :=
  if !st.autoPostingEnabled then (st, false)
  else
    match st.lastScanTime with
    | none =>
      ({ st with lastScanTime := some env.finishTime,
                 currentInterval := updateInterval env.scanCount st.currentInterval },
       true)
    | some t =>
      if env.now - t < 60 * (st.currentInterval : Int) then (st, false)
      else
        ({ st with lastScanTime := some env.finishTime,
                   currentInterval := updateInterval env.scanCount st.currentInterval },
         true)

/-- Iterated scheduler ticks. -/
def tickRuns (st : SchedulerState) : List TickEnv → SchedulerState
  | [] => st
  | e :: es => tickRuns (settlement_scheduler_tick st e).1 es

/-! ## Manual trigger (`oca_next`, src lines 650-664) -/

/-- The whole of the bot's mutable global state: the seen set plus the
scheduler's variables (src lines 63-70). -/
structure BotState where
  seen : List String
  currentInterval : Nat
  lastScanTime : Option Int
  autoPostingEnabled : Bool
deriving DecidableEq

/-- The `!oca_next` / `/oca_next` manual trigger (src lines 650-664 and
763-779): it calls `run_settlement_scan` with the default cap and reports the
count; `run_settlement_scan` mutates only `seen_ids` (src line 525), so the
scheduler's variables pass through untouched. -/
def oca_next (pages : String → Option Page) (links : List String)
    (g : BotState) : BotState × Nat :=
  let r := run_settlement_scan pages links g.seen MAX_POSTS_PER_RUN
  ({ g with seen := r.2.1 }, r.2.2)

/-! ## Concrete test pages -/

/-- A page whose only reward-keyword line ends at its colon. -/
def pageColon : Page := [⟨"p", "Payout:", none⟩]

/-- A page with no reward keyword and no currency line. -/
def pageQuiet : Page := [⟨"p", "Hello world", none⟩]

/-- Same-line "Proof: No" before a heading "Proof Required?" answered "Yes". -/
def pageProofA : Page :=
  [⟨"p", "Proof: No", none⟩, ⟨"h3", "Proof Required?", none⟩, ⟨"p", "Yes", none⟩]

/-- The heading "Proof Required?" answered "Yes" before "Proof: No". -/
def pageProofB : Page :=
  [⟨"h3", "Proof Required?", none⟩, ⟨"p", "Yes", none⟩, ⟨"p", "Proof: No", none⟩]

/-! ## Helper lemmas: characters, lowering and stripping -/

theorem char_toNat_ofNat_valid (m : Nat) (h : Nat.isValidChar m) :
    (Char.ofNat m).toNat = m := by
  unfold Char.ofNat
  rw [dif_pos h]
  rfl

/-- Lowercasing never turns a character into or out of whitespace. -/
theorem isWhitespace_toLower (c : Char) :
    (Char.toLower c).isWhitespace = c.isWhitespace := by
  simp only [Char.toLower]
  split
  · rename_i h
    have hv : Nat.isValidChar (c.toNat + 32) := by
      unfold Nat.isValidChar
      omega
    have ht : (Char.ofNat (c.toNat + 32)).toNat = c.toNat + 32 :=
      char_toNat_ofNat_valid _ hv
    simp only [Char.isWhitespace]
    have e1 : (' ').toNat = 32 := rfl
    have e2 : ('\t').toNat = 9 := rfl
    have e3 : ('\x0d').toNat = 13 := rfl
    have e4 : ('\n').toNat = 10 := rfl
    have h1 : (Char.ofNat (c.toNat + 32)) ≠ ' ' := by
      intro he; have := congrArg Char.toNat he; omega
    have h2 : (Char.ofNat (c.toNat + 32)) ≠ '\t' := by
      intro he; have := congrArg Char.toNat he; omega
    have h3 : (Char.ofNat (c.toNat + 32)) ≠ '\x0d' := by
      intro he; have := congrArg Char.toNat he; omega
    have h4 : (Char.ofNat (c.toNat + 32)) ≠ '\n' := by
      intro he; have := congrArg Char.toNat he; omega
    have g1 : c ≠ ' ' := by intro he; rw [he] at h; omega
    have g2 : c ≠ '\t' := by intro he; rw [he] at h; omega
    have g3 : c ≠ '\x0d' := by intro he; rw [he] at h; omega
    have g4 : c ≠ '\n' := by intro he; rw [he] at h; omega
    simp [h1, h2, h3, h4, g1, g2, g3, g4]
  · rfl

theorem dropWhile_ws_map_toLower (l : List Char) :
    (l.map Char.toLower).dropWhile Char.isWhitespace
      = (l.dropWhile Char.isWhitespace).map Char.toLower := by
  have hp : (Char.isWhitespace ∘ Char.toLower) = Char.isWhitespace :=
    funext isWhitespace_toLower
  rw [List.dropWhile_map, hp]

/-- Stripping commutes with lowercasing. -/
theorem strip_lowerStr (s : String) : strip (lowerStr s) = lowerStr (strip s) := by
  apply String.ext
  show stripL (s.data.map Char.toLower) = (stripL s.data).map Char.toLower
  unfold stripL
  rw [dropWhile_ws_map_toLower, ← List.map_reverse, dropWhile_ws_map_toLower,
    List.map_reverse]

/-! ## Helper lemmas: the code-point order -/

theorem lexLe_trans : ∀ (a b c : List Char),
    lexLe a b = true → lexLe b c = true → lexLe a c = true
  | [], _, _, _, _ => rfl
  | _ :: _, [], _, h, _ => by simp [lexLe] at h
  | _ :: _, _ :: _, [], _, h => by simp [lexLe] at h
  | a :: as, b :: bs, c :: cs, h1, h2 => by
    simp only [lexLe] at h1 h2 ⊢
    rcases lt_trichotomy a b with hab | hab | hab
    · rcases lt_trichotomy b c with hbc | hbc | hbc
      · rw [if_pos (lt_trans hab hbc)]
      · subst hbc
        rw [if_pos hab]
      · rw [if_neg (lt_asymm hbc), if_pos hbc] at h2
        exact absurd h2 (by simp)
    · subst hab
      rw [if_neg (lt_irrefl a), if_neg (lt_irrefl a)] at h1
      rcases lt_trichotomy a c with hac | hac | hac
      · rw [if_pos hac]
      · subst hac
        rw [if_neg (lt_irrefl a), if_neg (lt_irrefl a)] at h2 ⊢
        exact lexLe_trans as bs cs h1 h2
      · rw [if_neg (lt_asymm hac), if_pos hac] at h2
        exact absurd h2 (by simp)
    · rw [if_neg (lt_asymm hab), if_pos hab] at h1
      exact absurd h1 (by simp)

theorem lexLe_total : ∀ (a b : List Char), lexLe a b = true ∨ lexLe b a = true
  | [], _ => Or.inl rfl
  | _ :: _, [] => Or.inr rfl
  | a :: as, b :: bs => by
    rcases lt_trichotomy a b with h | h | h
    · left; simp [lexLe, h]
    · subst h
      rcases lexLe_total as bs with ih | ih
      · left; simp [lexLe, ih]
      · right; simp [lexLe, ih]
    · right; simp [lexLe, h]

theorem strLeP_trans_inst : IsTrans String strLeP :=
  ⟨fun a b c => lexLe_trans a.data b.data c.data⟩

theorem strLeP_total_inst : IsTotal String strLeP :=
  ⟨fun a b => lexLe_total a.data b.data⟩

/-! ## Helper lemmas: extraction and scanning -/

/-- Both branches of the fetch return the requested URL as the record id. -/
theorem fetch_settlement_details_id (pages : String → Option Page) (url : String) :
    (fetch_settlement_details pages url).id = url := by
  unfold fetch_settlement_details
  cases hp : pages url
  · rfl
  · rfl

theorem map_fetch_id (pages : String → Option Page) :
    ∀ (cl : List String),
      cl.map (fun u => (fetch_settlement_details pages u).id) = cl
  | [] => rfl
  | x :: xs => by
    simp only [List.map_cons]
    rw [fetch_settlement_details_id, map_fetch_id pages xs]

/-- The ids a scan emits: the unseen links, sorted, capped at `maxPosts`. -/
theorem run_scan_ids (pages : String → Option Page) (links seen : List String)
    (m : Nat) :
    ((run_settlement_scan pages links seen m).1.map (·.id))
      = ((links.filter (fun u => !seen.contains u)).insertionSort strLeP).take m := by
  unfold run_settlement_scan
  by_cases hl : links.isEmpty = true
  · rw [if_pos hl]
    rw [List.isEmpty_iff] at hl
    subst hl
    simp
  · rw [if_neg hl]
    by_cases hn : (links.filter (fun u => !seen.contains u)).isEmpty = true
    · rw [if_pos hn]
      rw [List.isEmpty_iff] at hn
      rw [hn]
      simp
    · rw [if_neg hn]
      dsimp only
      rw [List.map_map]
      exact map_fetch_id pages _

/-- The updated seen set is the old one extended by the emitted ids. -/
theorem run_scan_seen (pages : String → Option Page) (links seen : List String)
    (m : Nat) :
    (run_settlement_scan pages links seen m).2.1
      = seen ++ (run_settlement_scan pages links seen m).1.map (·.id) := by
  unfold run_settlement_scan
  by_cases hl : links.isEmpty = true
  · rw [if_pos hl]
    exact (List.append_nil seen).symm
  · rw [if_neg hl]
    by_cases hn : (links.filter (fun u => !seen.contains u)).isEmpty = true
    · rw [if_pos hn]
      exact (List.append_nil seen).symm
    · rw [if_neg hn]

/-- The count a scan returns is the number of emitted records. -/
theorem run_scan_count (pages : String → Option Page) (links seen : List String)
    (m : Nat) :
    (run_settlement_scan pages links seen m).2.2
      = (run_settlement_scan pages links seen m).1.length := by
  unfold run_settlement_scan
  by_cases hl : links.isEmpty = true
  · rw [if_pos hl]
    rfl
  · rw [if_neg hl]
    by_cases hn : (links.filter (fun u => !seen.contains u)).isEmpty = true
    · rw [if_pos hn]
      rfl
    · rw [if_neg hn]

/-- Ids in the new seen set: the old members plus the emitted ids. -/
theorem run_scan_seen_mem (pages : String → Option Page) (links seen : List String)
    (m : Nat) (u : String) :
    u ∈ (run_settlement_scan pages links seen m).2.1
      ↔ u ∈ seen ∨ u ∈ (run_settlement_scan pages links seen m).1.map (·.id) := by
  rw [run_scan_seen]
  exact List.mem_append

/-- When the cap does not bite, a scan emits every unseen link, so running
again right away finds nothing new. -/
theorem run_scan_second (pages : String → Option Page) (links seen : List String)
    (m : Nat) (hlen : (links.filter (fun u => !seen.contains u)).length ≤ m) :
    run_settlement_scan pages links
        (run_settlement_scan pages links seen m).2.1 m
      = ([], (run_settlement_scan pages links seen m).2.1, 0) := by
  set seen2 := (run_settlement_scan pages links seen m).2.1 with hs2
  have hids : (run_settlement_scan pages links seen m).1.map (·.id)
      = (links.filter (fun u => !seen.contains u)).insertionSort strLeP := by
    rw [run_scan_ids]
    apply List.take_of_length_le
    rw [(List.perm_insertionSort strLeP _).length_eq]
    exact hlen
  have hmem : ∀ u ∈ links, u ∈ seen2 := by
    intro u hu
    rw [hs2, run_scan_seen_mem]
    by_cases huseen : u ∈ seen
    · exact Or.inl huseen
    · right
      rw [hids, (List.perm_insertionSort strLeP _).mem_iff, List.mem_filter]
      refine ⟨hu, ?_⟩
      rw [Bool.not_eq_true']
      rw [← Bool.not_eq_true]
      intro hc
      exact huseen (List.elem_iff.mp hc)
  have hfil : links.filter (fun u => !seen2.contains u) = [] := by
    rw [List.filter_eq_nil_iff]
    intro u hu
    rw [Bool.not_eq_true', Bool.not_eq_false]
    exact List.elem_iff.mpr (hmem u hu)
  unfold run_settlement_scan
  by_cases hl : links.isEmpty = true
  · rw [if_pos hl]
  · rw [if_neg hl, hfil]
    rw [if_pos List.isEmpty_nil]

/-! ## Helper lemmas: scheduler -/

theorem updateInterval_le (c i : Nat) :
    updateInterval c i ≤ MAX_INTERVAL_MINUTES := by
  unfold updateInterval
  split
  · exact Nat.min_le_left _ _
  · unfold BASE_INTERVAL_MINUTES MAX_INTERVAL_MINUTES
    omega

theorem tick_interval_le (st : SchedulerState) (env : TickEnv)
    (h : st.currentInterval ≤ MAX_INTERVAL_MINUTES) :
    (settlement_scheduler_tick st env).1.currentInterval
      ≤ MAX_INTERVAL_MINUTES := by
  unfold settlement_scheduler_tick
  split
  · exact h
  · cases st.lastScanTime
    · exact updateInterval_le _ _
    · dsimp only
      split
      · exact h
      · exact updateInterval_le _ _

theorem tickRuns_le : ∀ (envs : List TickEnv) (st : SchedulerState),
    st.currentInterval ≤ MAX_INTERVAL_MINUTES →
    (tickRuns st envs).currentInterval ≤ MAX_INTERVAL_MINUTES
  | [], _, h => h
  | e :: es, st, h =>
    tickRuns_le es (settlement_scheduler_tick st e).1 (tick_interval_le st e h)

/-! ## Helper lemmas: best-candidate selection -/

/-- The selection loop either keeps its current choice (everything scores no
higher than the running best) or picks the first candidate whose score beats
the running best and is never beaten later. -/
theorem selectBest_cases : ∀ (l : List String) (b : Int) (cur : Option String),
    (selectBest b cur l = cur ∧ ∀ w ∈ l, score_proof_answer w ≤ b)
    ∨ (∃ pre v suf, l = pre ++ v :: suf ∧ selectBest b cur l = some v
        ∧ b < score_proof_answer v
        ∧ (∀ w ∈ pre, score_proof_answer w < score_proof_answer v)
        ∧ (∀ w ∈ suf, score_proof_answer w ≤ score_proof_answer v))
  | [], b, cur => Or.inl ⟨rfl, by intro w hw; cases hw⟩
  | v :: rest, b, cur => by
    by_cases hv : b < score_proof_answer v
    · have hsel : selectBest b cur (v :: rest)
          = selectBest (score_proof_answer v) (some v) rest := by
        simp only [selectBest]
        rw [if_pos hv]
      rcases selectBest_cases rest (score_proof_answer v) (some v) with
        ⟨heq, hall⟩ | ⟨pre, w, suf, hsplit, heq, hgt, hpre, hsuf⟩
      · right
        exact ⟨[], v, rest, rfl, by rw [hsel, heq], hv,
          (by intro w hw; cases hw), hall⟩
      · right
        refine ⟨v :: pre, w, suf, (by rw [hsplit]; rfl), by rw [hsel, heq],
          lt_trans hv hgt, ?_, hsuf⟩
        intro x hx
        rcases List.mem_cons.mp hx with hx | hx
        · subst hx; exact hgt
        · exact hpre x hx
    · have hsel : selectBest b cur (v :: rest) = selectBest b cur rest := by
        simp only [selectBest]
        rw [if_neg hv]
      rcases selectBest_cases rest b cur with
        ⟨heq, hall⟩ | ⟨pre, w, suf, hsplit, heq, hgt, hpre, hsuf⟩
      · left
        refine ⟨by rw [hsel, heq], ?_⟩
        intro x hx
        rcases List.mem_cons.mp hx with hx | hx
        · subst hx; exact le_of_not_lt hv
        · exact hall x hx
      · right
        refine ⟨v :: pre, w, suf, (by rw [hsplit]; rfl), by rw [hsel, heq], hgt, ?_, hsuf⟩
        intro x hx
        rcases List.mem_cons.mp hx with hx | hx
        · subst hx; exact lt_of_le_of_lt (le_of_not_lt hv) hgt
        · exact hpre x hx

/-! ## Helper lemmas: summary simplification -/

/-- A successful separator split always returns more than 40 characters. -/
theorem trySeps_some_length : ∀ (seps : List String) (raw r : String),
    trySeps raw seps = some r → 40 < r.length
  | [], _, _, h => by simp [trySeps] at h
  | sep :: rest, raw, r, h => by
    unfold trySeps at h
    cases hsp : splitFirstAux sep.data raw.data with
    | none =>
      rw [hsp] at h
      exact trySeps_some_length rest raw r h
    | some pr =>
      rw [hsp] at h
      dsimp only at h
      split at h
      · rename_i hlong
        have hr : (strip ⟨pr.1⟩ ++ strip sep) = r := by
          injection h
        rw [← hr, String.length_append]
        omega
      · exact trySeps_some_length rest raw r h

/-! ## Helper lemmas: the reward first pass -/

/-- A tag whose lowered text holds no reward keyword leaves the running
reward untouched. -/
theorem pass1Step_reward (i : Nat) (t : Tag) (acc : Pass1)
    (hk : ∀ k ∈ rewardKeys, strContains (lowerStr t.text) k = false) :
    (pass1Step i t acc).reward = acc.reward := by
  unfold pass1Step
  split
  · rfl
  · dsimp only
    split
    · rfl
    · have hany : rewardKeys.any (fun k => strContains (lowerStr t.text) k) = false :=
        List.any_eq_false.mpr (fun k hkk => by rw [hk k hkk]; exact Bool.false_ne_true)
      rw [hany]
      rw [Bool.and_false]
      rw [if_neg Bool.false_ne_true]
      repeat first | rfl | split

theorem pass1Go_reward : ∀ (ts : List Tag) (i : Nat) (acc : Pass1),
    (∀ t ∈ ts, ∀ k ∈ rewardKeys, strContains (lowerStr t.text) k = false) →
    (pass1Go i ts acc).reward = acc.reward
  | [], _, _, _ => rfl
  | t :: ts, i, acc, hk => by
    unfold pass1Go
    rw [pass1Go_reward ts (i + 1) _ (fun x hx => hk x (List.mem_cons_of_mem t hx))]
    exact pass1Step_reward i t acc (hk t (List.mem_cons_self t ts))

/-- The returned reward field is a string on both fetch paths, never null. -/
theorem fetch_reward_ne_none (pages : String → Option Page) (url : String) :
    (fetch_settlement_details pages url).reward ≠ none := by
  unfold fetch_settlement_details
  cases hp : pages url
  · exact fun h => Option.noConfusion h
  · exact fun h => Option.noConfusion h

/-! ## Helper lemmas: soft truncation -/

theorem softCut_length_le (raw : String) : (softCut raw).length ≤ 220 := by
  have hcut : (List.take 220 raw.data).length ≤ 220 := by
    rw [List.length_take]
    exact Nat.min_le_left _ _
  unfold softCut
  dsimp only
  cases hsp : lastSpaceIdx (List.take 220 raw.data) with
  | none => exact hcut
  | some j =>
    dsimp only
    split
    · show (List.take j (List.take 220 raw.data)).length ≤ 220
      rw [List.length_take]
      exact le_trans (Nat.min_le_right _ _) hcut
    · exact hcut

theorem softCut_space (raw : String) (i : Nat)
    (hi : lastSpaceIdx (raw.data.take 220) = some i) (h80 : 80 < i) :
    softCut raw = (⟨(raw.data.take 220).take i⟩ : String) := by
  unfold softCut
  dsimp only
  rw [hi]
  dsimp only
  rw [if_pos h80]

/-! ## Helper lemmas: scheduler ticks that scan -/

theorem tick_scan_interval (st : SchedulerState) (env : TickEnv)
    (hran : (settlement_scheduler_tick st env).2 = true) :
    (settlement_scheduler_tick st env).1.currentInterval
      = updateInterval env.scanCount st.currentInterval := by
  rcases st with ⟨ci, ls, en⟩
  cases en
  · simp [settlement_scheduler_tick] at hran
  · cases ls with
    | none => simp [settlement_scheduler_tick]
    | some t =>
      by_cases ht : env.now - t < 60 * (ci : Int)
      · simp [settlement_scheduler_tick, ht] at hran
      · simp [settlement_scheduler_tick, ht]

/-! ## The claims -/

/-- C1 (counterexample): a keyword line that ends at its colon makes the
extracted reward the empty string, so the reward field of a successfully
fetched page is not always a non-empty string. -/
theorem reward_empty_candidate_counterexample :
    (fetch_settlement_details (fun _ => some pageColon) "u").reward = some ""
    ∧ ("" : String) ≠ "Not listed" := by
  constructor
  · decide
  · decide

/-- C1 (amended): the reward field is never `none`: when no line of the page
holds a reward keyword, it is the first `p`/`li`/`strong` line with a currency
symbol and a fallback word, and the sentinel "Not listed" when there is no
such line either. (The keyword path can produce the empty string.) -/
theorem reward_sentinel_when_no_keyword (pages : String → Option Page)
    (url : String) (page : Page) (hp : pages url = some page)
    (hk : ∀ t ∈ page, ∀ k ∈ rewardKeys, strContains (lowerStr t.text) k = false) :
    ((fetch_settlement_details pages url).reward
      = some (((rewardFallback page).map (fun t => t.text)).getD "Not listed"))
    ∧ ∀ (ps : String → Option Page) (u : String),
        (fetch_settlement_details ps u).reward ≠ none := by
  refine ⟨?_, fetch_reward_ne_none⟩
  have hr : (pass1 page).reward = none :=
    pass1Go_reward page 0 ⟨none, none, [], []⟩ hk
  unfold fetch_settlement_details
  rw [hp]
  dsimp only
  rw [hr]
  cases hf : rewardFallback page
  · rfl
  · rfl

/-- C1 (witness): a page with no keyword and no currency line gets the
sentinel. -/
theorem reward_sentinel_witness :
    (fetch_settlement_details (fun _ => some pageQuiet) "u").reward
      = some "Not listed" := by
  have h := reward_sentinel_when_no_keyword (fun _ => some pageQuiet) "u"
    pageQuiet rfl (by decide)
  rw [h.1]
  decide

/-- C2 (counterexample): on a failed fetch the placeholder's reward is the
"Not listed" sentinel, not null. -/
theorem fetch_failure_reward_not_null_counterexample :
    (fetch_settlement_details (fun _ => none) "u").reward = some "Not listed"
    ∧ (fetch_settlement_details (fun _ => none) "u").reward ≠ none := by
  constructor
  · decide
  · decide

/-- C2 (amended): a failed fetch never raises past the function's boundary; it
returns the degraded placeholder: the id, the generic title, the reward
sentinel "Not listed", and null deadline, summary, proof and claim link. -/
theorem fetch_failure_placeholder (pages : String → Option Page) (url : String)
    (h : pages url = none) :
    fetch_settlement_details pages url
      = { id := url, title := "Class Action Settlement",
          reward := some "Not listed", deadline := none, summary := none,
          proof := none, claim_url := none } := by
  unfold fetch_settlement_details
  rw [h]

/-- C2 (witness). -/
theorem fetch_failure_witness :
    fetch_settlement_details (fun _ => none) "https://example.com/settlements/a.php"
      = { id := "https://example.com/settlements/a.php",
          title := "Class Action Settlement", reward := some "Not listed",
          deadline := none, summary := none, proof := none, claim_url := none } :=
  fetch_failure_placeholder (fun _ => none) "https://example.com/settlements/a.php" rfl

/-- C3: one scan emits exactly the unseen links, sorted by code point and
capped at `maxPosts`; every emitted id joins the seen set, the returned count
is the number of emissions, and when the cap does not bite an immediate
second scan over the same links emits nothing and returns 0. -/
theorem run_scan_emits_new_sorted_truncated (pages : String → Option Page)
    (links seen : List String) (m : Nat) :
    ((run_settlement_scan pages links seen m).1.map (·.id)
        = ((links.filter (fun u => !seen.contains u)).insertionSort strLeP).take m)
    ∧ List.Pairwise strLeP ((run_settlement_scan pages links seen m).1.map (·.id))
    ∧ (∀ u, u ∈ (run_settlement_scan pages links seen m).2.1
        ↔ u ∈ seen ∨ u ∈ (run_settlement_scan pages links seen m).1.map (·.id))
    ∧ (run_settlement_scan pages links seen m).2.2
        = (run_settlement_scan pages links seen m).1.length
    ∧ ((links.filter (fun u => !seen.contains u)).length ≤ m →
        run_settlement_scan pages links
            (run_settlement_scan pages links seen m).2.1 m
          = ([], (run_settlement_scan pages links seen m).2.1, 0)) := by
  refine ⟨run_scan_ids pages links seen m, ?_,
    run_scan_seen_mem pages links seen m, run_scan_count pages links seen m,
    run_scan_second pages links seen m⟩
  rw [run_scan_ids pages links seen m]
  exact List.Pairwise.sublist (List.take_sublist m _)
    (@List.sorted_insertionSort String strLeP _ strLeP_total_inst strLeP_trans_inst _)

/-- C3 (witness): with seen `{u1}` and links `{u1, u2, u3}` one scan emits
exactly `u2, u3` in order and returns 2; the immediate second scan returns
0 and emits nothing. -/
theorem run_scan_emits_witness :
    ((run_settlement_scan (fun _ => none) ["u1", "u2", "u3"] ["u1"] 30).1.map (·.id)
        = ["u2", "u3"])
    ∧ (run_settlement_scan (fun _ => none) ["u1", "u2", "u3"] ["u1"] 30).2.2 = 2
    ∧ run_settlement_scan (fun _ => none) ["u1", "u2", "u3"]
          (run_settlement_scan (fun _ => none) ["u1", "u2", "u3"] ["u1"] 30).2.1 30
        = ([], (run_settlement_scan (fun _ => none) ["u1", "u2", "u3"] ["u1"] 30).2.1, 0) := by
  have h := run_scan_emits_new_sorted_truncated (fun _ => none)
    ["u1", "u2", "u3"] ["u1"] 30
  exact ⟨by decide, by decide, h.2.2.2.2 (by decide)⟩

/-- C4: a completed scheduled run sets the interval to
`min ceiling (2 * interval)` when it emitted nothing and back to the base
when it emitted something; starting from the base interval, no sequence of
ticks ever pushes the interval past the ceiling. -/
theorem scheduler_backoff_and_ceiling (st st0 : SchedulerState) (env : TickEnv)
    (envs : List TickEnv) (hbase : st0.currentInterval = BASE_INTERVAL_MINUTES) :
    ((settlement_scheduler_tick st env).2 = true →
      (settlement_scheduler_tick st env).1.currentInterval
        = (if env.scanCount = 0
           then min MAX_INTERVAL_MINUTES (st.currentInterval * 2)
           else BASE_INTERVAL_MINUTES))
    ∧ (tickRuns st0 envs).currentInterval ≤ MAX_INTERVAL_MINUTES := by
  constructor
  · intro hran
    rw [tick_scan_interval st env hran]
    unfold updateInterval
    rfl
  · exact tickRuns_le envs st0 (by rw [hbase]; decide)

/-- C4 (witness): a zero-result run at interval 160 caps at the ceiling 180,
and three zero-result runs from the base stay within the ceiling. -/
theorem scheduler_backoff_witness :
    (settlement_scheduler_tick ⟨160, some 0, true⟩ ⟨96000, 97000, 0⟩).1.currentInterval = 180
    ∧ (tickRuns ⟨60, none, true⟩
        [⟨0, 10, 0⟩, ⟨100000, 100010, 0⟩, ⟨200000, 200010, 0⟩]).currentInterval ≤ 180 := by
  have h := scheduler_backoff_and_ceiling ⟨160, some 0, true⟩ ⟨60, none, true⟩
    ⟨96000, 97000, 0⟩ [⟨0, 10, 0⟩, ⟨100000, 100010, 0⟩, ⟨200000, 200010, 0⟩] rfl
  constructor
  · rw [h.1 (by decide)]
    decide
  · exact h.2

/-- C5: a tick with auto-posting disabled is a strict no-op; the first-ever
tick scans at once; later ticks scan exactly when the elapsed time reaches
the current interval; a tick that does not scan changes no state. -/
theorem scheduler_tick_gating (st : SchedulerState) (env : TickEnv) :
    (st.autoPostingEnabled = false → settlement_scheduler_tick st env = (st, false))
    ∧ (st.autoPostingEnabled = true → st.lastScanTime = none →
        (settlement_scheduler_tick st env).2 = true)
    ∧ (∀ t : Int, st.autoPostingEnabled = true → st.lastScanTime = some t →
        ((settlement_scheduler_tick st env).2 = true
          ↔ 60 * (st.currentInterval : Int) ≤ env.now - t))
    ∧ ((settlement_scheduler_tick st env).2 = false →
        (settlement_scheduler_tick st env).1 = st) := by
  rcases st with ⟨ci, ls, en⟩
  refine ⟨?_, ?_, ?_, ?_⟩
  · intro hen
    subst hen
    simp [settlement_scheduler_tick]
  · intro hen hls
    subst hen
    dsimp only at hls
    subst hls
    simp [settlement_scheduler_tick]
  · intro t hen hls
    subst hen
    dsimp only at hls
    subst hls
    by_cases ht : env.now - t < 60 * (ci : Int)
    · simp [settlement_scheduler_tick, ht]
      try omega
    · simp [settlement_scheduler_tick, ht]
      try omega
  · intro hnorun
    cases en
    · simp [settlement_scheduler_tick]
    · cases ls with
      | none => simp [settlement_scheduler_tick] at hnorun
      | some t =>
        by_cases ht : env.now - t < 60 * (ci : Int)
        · simp [settlement_scheduler_tick, ht]
        · simp [settlement_scheduler_tick, ht] at hnorun

/-- C5 (witness): a disabled tick is a no-op, a never-ran tick scans, and a
tick 1 second short of the interval does not scan. -/
theorem scheduler_tick_gating_witness :
    settlement_scheduler_tick ⟨60, some 0, false⟩ ⟨99999, 99999, 5⟩
        = (⟨60, some 0, false⟩, false)
    ∧ (settlement_scheduler_tick ⟨60, none, true⟩ ⟨0, 5, 0⟩).2 = true
    ∧ (settlement_scheduler_tick ⟨60, some 0, true⟩ ⟨3599, 3600, 0⟩).2 = false := by
  have h1 := scheduler_tick_gating ⟨60, some 0, false⟩ ⟨99999, 99999, 5⟩
  have h2 := scheduler_tick_gating ⟨60, none, true⟩ ⟨0, 5, 0⟩
  exact ⟨h1.1 rfl, h2.2.1 rfl rfl, by decide⟩

/-- C6: a manual `oca_next` run leaves the scheduler's interval, last-run
time and enabled flag exactly as they were; the seen set only grows. -/
theorem manual_scan_scheduler_transparent (pages : String → Option Page)
    (links : List String) (g : BotState) :
    (oca_next pages links g).1.currentInterval = g.currentInterval
    ∧ (oca_next pages links g).1.lastScanTime = g.lastScanTime
    ∧ (oca_next pages links g).1.autoPostingEnabled = g.autoPostingEnabled
    ∧ ∀ u ∈ g.seen, u ∈ (oca_next pages links g).1.seen := by
  refine ⟨rfl, rfl, rfl, ?_⟩
  intro u hu
  show u ∈ (run_settlement_scan pages links g.seen MAX_POSTS_PER_RUN).2.1
  exact (run_scan_seen_mem pages links g.seen MAX_POSTS_PER_RUN u).mpr (Or.inl hu)

/-- C6 (witness). -/
theorem manual_scan_witness :
    (oca_next (fun _ => none) ["a"] ⟨[], 77, some 5, true⟩).1
        = ⟨["a"], 77, some 5, true⟩
    ∧ "x" ∈ (oca_next (fun _ => none) ["a"] ⟨["x"], 77, some 5, true⟩).1.seen := by
  have h := manual_scan_scheduler_transparent (fun _ => none) ["a"]
    ⟨["x"], 77, some 5, true⟩
  exact ⟨by decide, h.2.2.2 "x" (by decide)⟩

/-- C7 (counterexample): "Payout varies?" ends with "?" and has no currency
symbol, yet the filter accepts it, because of the varies/pending/TBD escape. -/
theorem bad_reward_heading_varies_counterexample :
    strEndsWith "Payout varies?" "?" = true
    ∧ strContains "Payout varies?" "$" = false
    ∧ is_bad_reward_heading "Payout varies?" = false := by
  refine ⟨by decide, by decide, by decide⟩

/-- C7 (amended): a candidate that ends with "?", holds no currency symbol
and whose lowered text holds none of the variation markers
(varies/pending/tbd/to be determined) is always rejected. -/
theorem bad_reward_heading_question_filter (s : String)
    (h1 : strEndsWith s "?" = true) (h2 : strContains s "$" = false)
    (h3 : ∀ k ∈ variationMarkers, strContains (strip (lowerStr s)) k = false) :
    is_bad_reward_heading s = true := by
  unfold is_bad_reward_heading
  dsimp only
  have hany : variationMarkers.any (fun k => strContains (strip (lowerStr s)) k)
      = false :=
    List.any_eq_false.mpr (fun k hk => by rw [h3 k hk]; exact Bool.false_ne_true)
  rw [h1, h2, hany]
  rfl

/-- C7 (witness). -/
theorem bad_reward_heading_witness :
    is_bad_reward_heading "Who qualifies?" = true :=
  bad_reward_heading_question_filter "Who qualifies?" (by decide) (by decide)
    (by decide)

/-- C8: the proof answer is the highest-scoring candidate across both shapes,
the first one found winning ties; `normalize_proof_answer` sends
"Not Required" to the canonical negative sentence and "required" to the
canonical affirmative one; and a page carrying both "Proof: No" and a heading
"Proof Required?" answered "Yes" resolves to the negative sentence in either
document order. -/
theorem proof_answer_best_score_selection (l : List String) (v : String)
    (h : selectBest (-1) none l = some v) :
    (v ∈ l ∧ (∀ w ∈ l, score_proof_answer w ≤ score_proof_answer v)
      ∧ ∃ pre suf, l = pre ++ v :: suf
          ∧ ∀ w ∈ pre, score_proof_answer w < score_proof_answer v)
    ∧ normalize_proof_answer "Not Required" = "No, proof is not required."
    ∧ normalize_proof_answer "required" = "Yes, proof is required."
    ∧ (fetch_settlement_details (fun _ => some pageProofA) "u").proof
        = some "No, proof is not required."
    ∧ (fetch_settlement_details (fun _ => some pageProofB) "u").proof
        = some "No, proof is not required." := by
  refine ⟨?_, by decide, by decide, by decide, by decide⟩
  rcases selectBest_cases l (-1) none with ⟨heq, _⟩ |
    ⟨pre, w, suf, hsplit, heq, _, hpre, hsuf⟩
  · rw [h] at heq
    cases heq
  · rw [h] at heq
    injection heq with hw
    subst hw
    refine ⟨?_, ?_, pre, suf, hsplit, hpre⟩
    · rw [hsplit]
      exact List.mem_append_right pre (List.mem_cons_self v suf)
    · intro x hx
      rw [hsplit] at hx
      rcases List.mem_append.mp hx with hx | hx
      · exact le_of_lt (hpre x hx)
      · rcases List.mem_cons.mp hx with hx | hx
        · subst hx
          exact le_refl _
        · exact hsuf x hx

/-- C8 (witness): a single candidate "No" is selected, sits at the head of
the list, and no candidate outscores it. -/
theorem proof_answer_selection_witness :
    ("No" : String) ∈ ["No", "Yes"]
    ∧ (∀ w ∈ [("No" : String), "Yes"],
        score_proof_answer w ≤ score_proof_answer "No")
    ∧ normalize_proof_answer "Not Required" = "No, proof is not required." := by
  have h := proof_answer_best_score_selection ["No", "Yes"] "No" (by decide)
  exact ⟨h.1.1, h.1.2.1, h.2.1⟩

/-- C9 (counterexample): the whitespace-only input " " is non-empty, yet
`simplify_summary` returns the empty string for it. -/
theorem simplify_summary_blank_counterexample :
    (" " : String) ≠ "" ∧ simplify_summary " " = "" := by
  refine ⟨by decide, by decide⟩

/-- C9 (amended): for input whose whitespace-collapse is non-empty the result
is never empty: the first separator split longer than the 40-char minimum is
returned (with its punctuation); otherwise a collapse within the 220-char
budget is returned whole; otherwise the result is the soft 220-char cut plus
an ellipsis, within 223 chars, and the cut lands on the last space whenever
that space sits beyond position 80. -/
theorem simplify_summary_branches (text : String) (h : collapseWs text ≠ "") :
    simplify_summary text ≠ ""
    ∧ (∀ r, trySeps (collapseWs text) sentenceSeps = some r →
        simplify_summary text = r ∧ 40 < r.length)
    ∧ (trySeps (collapseWs text) sentenceSeps = none →
        (collapseWs text).length ≤ 220 → simplify_summary text = collapseWs text)
    ∧ (trySeps (collapseWs text) sentenceSeps = none →
        220 < (collapseWs text).length →
        simplify_summary text = softCut (collapseWs text) ++ "..."
        ∧ (simplify_summary text).length ≤ 223
        ∧ (softCut (collapseWs text)).length ≤ 220
        ∧ (∀ i, lastSpaceIdx ((collapseWs text).data.take 220) = some i → 80 < i →
            softCut (collapseWs text)
              = (⟨((collapseWs text).data.take 220).take i⟩ : String))) := by
  have htext : text ≠ "" := by
    intro he
    apply h
    rw [he]
    rfl
  unfold simplify_summary
  rw [if_neg htext]
  dsimp only
  cases hts : trySeps (collapseWs text) sentenceSeps with
  | some r0 =>
    have hlen := trySeps_some_length sentenceSeps (collapseWs text) r0 hts
    refine ⟨?_, ?_, ?_, ?_⟩
    · show r0 ≠ ""
      intro he
      rw [he] at hlen
      exact absurd hlen (by decide)
    · intro r hr
      injection hr with hr
      subst hr
      exact ⟨rfl, hlen⟩
    · intro habs
      cases habs
    · intro habs
      cases habs
  | none =>
    dsimp only
    by_cases hle : (collapseWs text).length ≤ 220
    · rw [if_pos hle]
      refine ⟨h, ?_, fun _ _ => rfl, ?_⟩
      · intro r hr
        cases hr
      · intro _ hgt
        omega
    · rw [if_neg hle]
      refine ⟨?_, ?_, ?_, ?_⟩
      · intro he
        have hl3 := congrArg String.length he
        rw [String.length_append] at hl3
        have h3len : ("..." : String).length = 3 := by decide
        rw [h3len] at hl3
        simp at hl3
      · intro r hr
        cases hr
      · intro _ hle2
        exact absurd hle2 hle
      · intro _ _
        refine ⟨rfl, ?_, softCut_length_le (collapseWs text), ?_⟩
        · rw [String.length_append]
          have h3 : ("..." : String).length = 3 := by decide
          rw [h3]
          have := softCut_length_le (collapseWs text)
          omega
        · intro i hi h80
          exact softCut_space (collapseWs text) i hi h80

/-- C9 (witness): the spec's own shape "A. B. C." has a short first sentence
and falls through to being returned whole, never near-empty. -/
theorem simplify_summary_witness :
    simplify_summary "A. B. C." ≠ ""
    ∧ simplify_summary "A. B. C." = collapseWs "A. B. C." := by
  have h := simplify_summary_branches "A. B. C." (by decide)
  exact ⟨h.1, h.2.2.1 (by decide) (by decide)⟩

/-- C10 (counterexample): on the input "Yes, proof is required." the score is
1, not 0, although `normalize_proof_answer` returns the stripped input
verbatim; so "score 0 exactly when normalize returns the stripped input" is
false as stated. -/
theorem score_normalize_verbatim_counterexample :
    score_proof_answer "Yes, proof is required." = 1
    ∧ normalize_proof_answer "Yes, proof is required."
        = strip "Yes, proof is required." := by
  refine ⟨by decide, by decide⟩

/-- C10 (amended): the scorer and the normalizer branch together: score 3
exactly on the canonical negative sentence, 2 exactly on the canonical maybe
sentence, 1 exactly on the canonical affirmative sentence, and 0 exactly when
the normalizer returns the stripped input and that value is none of the three
canonical sentences. -/
theorem score_normalize_agreement (s : String) :
    (score_proof_answer s = 3
      ↔ normalize_proof_answer s = "No, proof is not required.")
    ∧ (score_proof_answer s = 2
      ↔ normalize_proof_answer s = "Proof may be required.")
    ∧ (score_proof_answer s = 1
      ↔ normalize_proof_answer s = "Yes, proof is required.")
    ∧ (score_proof_answer s = 0
      ↔ (normalize_proof_answer s = strip s
          ∧ strip s ≠ "No, proof is not required."
          ∧ strip s ≠ "Proof may be required."
          ∧ strip s ≠ "Yes, proof is required.")) := by
  have hcomm := strip_lowerStr s
  unfold score_proof_answer normalize_proof_answer
  dsimp only
  split_ifs with h1 h2 h3 h4
  · refine ⟨⟨fun _ => rfl, fun _ => rfl⟩,
      ⟨fun hh => absurd hh (by decide), fun hh => absurd hh (by decide)⟩,
      ⟨fun hh => absurd hh (by decide), fun hh => absurd hh (by decide)⟩,
      ⟨fun hh => absurd hh (by decide), ?_⟩⟩
    rintro ⟨ha, hb, -, -⟩
    exact absurd ha.symm hb
  · refine ⟨⟨fun _ => rfl, fun _ => rfl⟩,
      ⟨fun hh => absurd hh (by decide), fun hh => absurd hh (by decide)⟩,
      ⟨fun hh => absurd hh (by decide), fun hh => absurd hh (by decide)⟩,
      ⟨fun hh => absurd hh (by decide), ?_⟩⟩
    rintro ⟨ha, hb, -, -⟩
    exact absurd ha.symm hb
  · refine ⟨⟨fun hh => absurd hh (by decide), fun hh => absurd hh (by decide)⟩,
      ⟨fun _ => rfl, fun _ => rfl⟩,
      ⟨fun hh => absurd hh (by decide), fun hh => absurd hh (by decide)⟩,
      ⟨fun hh => absurd hh (by decide), ?_⟩⟩
    rintro ⟨ha, -, hb, -⟩
    exact absurd ha.symm hb
  · refine ⟨⟨fun hh => absurd hh (by decide), fun hh => absurd hh (by decide)⟩,
      ⟨fun hh => absurd hh (by decide), fun hh => absurd hh (by decide)⟩,
      ⟨fun _ => rfl, fun _ => rfl⟩,
      ⟨fun hh => absurd hh (by decide), ?_⟩⟩
    rintro ⟨ha, -, -, hb⟩
    exact absurd ha.symm hb
  · have hne1 : strip s ≠ "No, proof is not required." := by
      intro he
      apply h1
      rw [hcomm, he]
      decide
    have hne2 : strip s ≠ "Proof may be required." := by
      intro he
      apply h3
      rw [hcomm, he]
      decide
    have hne3 : strip s ≠ "Yes, proof is required." := by
      intro he
      apply h4
      rw [hcomm, he]
      decide
    refine ⟨⟨fun hh => absurd hh (by decide), fun hh => absurd hh hne1⟩,
      ⟨fun hh => absurd hh (by decide), fun hh => absurd hh hne2⟩,
      ⟨fun hh => absurd hh (by decide), fun hh => absurd hh hne3⟩,
      ⟨fun _ => ⟨rfl, hne1, hne2, hne3⟩, fun _ => rfl⟩⟩

end OCA
